import Mathlib

/-!
# balance: `find_dip` and `longest_balanced_span`; rubricscore

Shallow embedding of `balance_solution.hpp` (namespace `balance`) and of the
scoring functions of `rubricscore.cpp` (namespace `rubricscore`).

* A `std::vector<int>` is a `List Int`; an iterator `values.begin() + i` is the
  natural number `i`, and `values.end()` is `values.length`.
* Dereferencing an iterator outside `[begin, end)` and a failed `assert` are
  explicit faults, so that their absence is a theorem and not an assumption.
* `std::accumulate(i, j, 0)` accumulates in a 32-bit `int`; the accumulator is
  wrapped into the signed 32-bit range after every addition (signed overflow,
  which the C++ standard leaves undefined, is taken as two's complement wrap).
* Loops are structural recursions on a fuel argument; the entry points supply
  `values.length + 1`, which is shown to be enough.
* In `rubricscore`, a thrown `parse_exception` and a failed `assert` are the two
  failures of an `Except` result; a range-`for` over a vector is a recursion on
  the list; a `const rubric_item*` is the item pointed to (`none` for `nullptr`).
* A `std::string` is a `String` with one character per `char`, so `size()` is
  `length`; the conversion `unsigned(n)` of a `size_t` is `n % 2^32`.
-/

namespace balance

/-! ## Data model -/

/-- The ways in which the embedded code can leave its defined behaviour. -/
inductive Fault where
  /-- An iterator outside `[begin, end)` was dereferenced. -/
  | out_of_range
  /-- The `assert(begin < end)` of the `span` constructor failed. -/
  | assertion
  /-- The loop fuel of the model ran out. -/
  | fuel
deriving DecidableEq, Repr

/-- The read `*it` for `it = values.begin() + i`. -/
def deref (values : List Int) (i : Nat) : Except Fault Int :=
  match values[i]? with
  | some x => .ok x
  | none => .error .out_of_range

/-- Two's complement wrap of an integer into the range of a 32-bit `int`. -/
def wrap32 (x : Int) : Int :=
  (x + 2147483648) % 4294967296 - 2147483648

/-! ## `find_dip` -/

/-- The `for` loop of `find_dip`, with the three cursors `i`, `j`, `k`. The
condition `(*i == *k) && (*j < *i)` reads `*j` only when `*i == *k`. -/
def find_dip_loop (values : List Int) : Nat → Nat → Nat → Nat → Except Fault Nat
  | 0, _, _, _ => .error .fuel
  | fuel + 1, i, j, k =>
    if k < values.length then
      match deref values i with
      | .error f => .error f
      | .ok a =>
        match deref values k with
        | .error f => .error f
        | .ok c =>
          if a = c then
            match deref values j with
            | .error f => .error f
            | .ok b =>
              if b < a then .ok i
              else find_dip_loop values fuel (i + 1) (j + 1) (k + 1)
          else find_dip_loop values fuel (i + 1) (j + 1) (k + 1)
    else .ok values.length

/-- The function `find_dip`: cursors start at `begin()`, `begin()+1`,
`begin()+2`; the result is an iterator, `values.length` being `values.end()`. -/
def find_dip (values : List Int) : Except Fault Nat :=
  find_dip_loop values (values.length + 1) 0 1 2

/-- A dip starts at index `i`: the three elements `i`, `i+1`, `i+2` exist, the
first equals the third and the middle one is smaller. -/
def isDip (values : List Int) (i : Nat) : Prop :=
  i + 2 < values.length ∧ values.getD i 0 = values.getD (i + 2) 0 ∧
    values.getD (i + 1) 0 < values.getD i 0

instance (values : List Int) (i : Nat) : Decidable (isDip values i) := by
  unfold isDip; infer_instance

/-! ## `span` -/

/-- The class `span`: a pair of iterators into one vector. -/
structure span where
  begin_ : Nat
  end_ : Nat
deriving DecidableEq, Repr

/-- The constructor `span::span(begin, end)` with its `assert(begin < end)`. -/
def span.ctor (b e : Nat) : Except Fault span :=
  if b < e then .ok ⟨b, e⟩ else .error .assertion

/-- The method `span::size`: the iterator difference `end_ - begin_`, converted
to the 64-bit unsigned `size_t` (a negative difference wraps modulo `2^64`). -/
def span.size (s : span) : Nat :=
  if s.begin_ ≤ s.end_ then s.end_ - s.begin_
  else 18446744073709551616 - (s.begin_ - s.end_)

/-! ## `longest_balanced_span` -/

/-- The call `std::accumulate(first, last, init)` with an `int` accumulator:
`for (; first != last; ++first) init = init + *first;`. -/
def accumulate (values : List Int) : Nat → Nat → Nat → Int → Except Fault Int
  | 0, _, _, _ => .error .fuel
  | fuel + 1, first, last, init =>
    if first ≠ last then
      match deref values first with
      | .error f => .error f
      | .ok x => accumulate values fuel (first + 1) last (wrap32 (init + x))
    else .ok init

/-- The test `!best || (cand.size() >= best->size())`. -/
def replaces (best : Option span) (cand : span) : Bool :=
  match best with
  | none => true
  | some b => decide (cand.size ≥ b.size)

/-- The inner loop `for (j = i + 1; j <= values.end(); ++j)` of
`longest_balanced_span`, for a fixed `i`. -/
def lbs_inner (values : List Int) (i : Nat) :
    Nat → Nat → Option span → Except Fault (Option span)
  | 0, _, _ => .error .fuel
  | fuel + 1, j, best =>
    if j ≤ values.length then
      match accumulate values (values.length + 1) i j 0 with
      | .error f => .error f
      | .ok s =>
        if 0 = s then
          match span.ctor i j with
          | .error f => .error f
          | .ok cand =>
            if replaces best cand then lbs_inner values i fuel (j + 1) (some cand)
            else lbs_inner values i fuel (j + 1) best
        else lbs_inner values i fuel (j + 1) best
    else .ok best

/-- The outer loop `for (i = values.begin(); i != values.end(); ++i)`. -/
def lbs_outer (values : List Int) :
    Nat → Nat → Option span → Except Fault (Option span)
  | 0, _, _ => .error .fuel
  | fuel + 1, i, best =>
    if i ≠ values.length then
      match lbs_inner values i (values.length + 1) (i + 1) best with
      | .error f => .error f
      | .ok best' => lbs_outer values fuel (i + 1) best'
    else .ok best

/-- The function `longest_balanced_span`; `best` starts as the empty optional. -/
def longest_balanced_span (values : List Int) : Except Fault (Option span) :=
  lbs_outer values (values.length + 1) 0 none

/-- The exact (unbounded integer) sum of the elements at positions `[b, e)`. -/
def rangeSum (values : List Int) (b e : Nat) : Int :=
  ((values.drop b).take (e - b)).sum

/-! ## Specification vocabulary -/

/-- The integer `x` is representable in a signed 32-bit `int`. -/
def fits32 (x : Int) : Prop :=
  -2147483648 ≤ x ∧ x ≤ 2147483647

instance (x : Int) : Decidable (fits32 x) := by
  unfold fits32; infer_instance

/-- No accumulator of the search overflows: the exact sum of every contiguous
range `[b, e)` of the vector is representable in a signed 32-bit `int`. -/
def NoOverflow (values : List Int) : Prop :=
  ∀ e, e ≤ values.length → ∀ b, b ≤ e → fits32 (rangeSum values b e)

instance (values : List Int) : Decidable (NoOverflow values) := by
  unfold NoOverflow; infer_instance

/-- The index `r` is the answer of a scan for the first dip at or after `i`:
either `r` is the end and no dip starts at or after `i`, or `r` is the least
dip start at or after `i`. -/
def FirstDipFrom (values : List Int) (i r : Nat) : Prop :=
  (r = values.length ∧ ∀ m, i ≤ m → ¬ isDip values m) ∨
  (isDip values r ∧ i ≤ r ∧ ∀ m, i ≤ m → m < r → ¬ isDip values m)

/-- The pair `(b, e)` is a candidate of the search: a non-empty range inside the
vector whose 32-bit accumulated sum compares equal to zero. -/
def Cand (values : List Int) (b e : Nat) : Prop :=
  b < e ∧ e ≤ values.length ∧ wrap32 (rangeSum values b e) = 0

/-- The pair `(b, e)` is enumerated before the loops reach the pair `(i, j)`. -/
def Seen (i j b e : Nat) : Prop :=
  b < i ∨ (b = i ∧ e < j)

/-- The value `best` is the right answer for the candidates selected by `seen`:
empty when there is none, and otherwise a candidate that every selected
candidate is shorter than, or as long as and not starting later. -/
def Inv (values : List Int) (seen : Nat → Nat → Prop) (best : Option span) : Prop :=
  match best with
  | none => ∀ b e, Cand values b e → ¬ seen b e
  | some s =>
    Cand values s.begin_ s.end_ ∧
    ∀ b e, Cand values b e → seen b e →
      e - b < s.end_ - s.begin_ ∨ (e - b = s.end_ - s.begin_ ∧ b ≤ s.begin_)

/-- The sum of the absolute values of the elements of the vector. -/
def absSum (values : List Int) : Nat :=
  (values.map Int.natAbs).sum

end balance

namespace rubricscore

/-! ## Data model of `rubricscore.cpp` -/

/-- The ways in which a function of the tool fails: it throws a
`parse_exception` carrying a message, or one of its `assert`s fails. -/
inductive Failure where
  | parse_exception (what : String)
  | assertion
deriving DecidableEq, Repr

/-- The class `testsuite`; the `unsigned` members are natural numbers. -/
structure testsuite where
  name_ : String
  tests_ : Nat
  failures_ : Nat
  disabled_ : Nat
  errors_ : Nat
  time_ : Nat
deriving DecidableEq, Repr

/-- The accessor `testsuite::name`. -/
def testsuite.name (s : testsuite) : String := s.name_

/-- The accessor `testsuite::failures`. -/
def testsuite.failures (s : testsuite) : Nat := s.failures_

/-- The accessor `testsuite::errors`. -/
def testsuite.errors (s : testsuite) : Nat := s.errors_

/-- The type `test_results`, a `std::map<std::string, testsuite>`, as the list
of its entries. -/
abbrev test_results := List (String × testsuite)

/-- The lookup `the_results.find(name)`: the suite stored under the key `name`,
or `none` for `the_results.end()`. -/
def test_results.find (the_results : test_results) (name : String) : Option testsuite :=
  List.lookup name the_results

/-- The class `rubric_item`. -/
structure rubric_item where
  name_ : String
  points_ : Nat
deriving DecidableEq, Repr

/-- The accessor `rubric_item::name`. -/
def rubric_item.name (item : rubric_item) : String := item.name_

/-- The accessor `rubric_item::points`. -/
def rubric_item.points (item : rubric_item) : Nat := item.points_

/-- The type `rubric`, a `std::vector<rubric_item>`. -/
abbrev rubric := List rubric_item

/-- The part of the `boost::property_tree::ptree` read by `read_json` that
`load_rubric` looks at: the children of the root in document order, each with
its key and with the outcome of decoding its data as an `unsigned` (`none` when
the data does not decode). -/
abbrev ptree := List (String × Option Nat)

/-- The call `node.get_value<unsigned>(dflt)`: the decoded data, or `dflt`. -/
def get_value (node : Option Nat) (dflt : Nat) : Nat :=
  node.getD dflt

/-- The loop `for (auto& child : tree)` of `load_rubric`. -/
def load_rubric_loop : ptree → rubric → Except Failure rubric
  | [], result => .ok result
  | child :: rest, result =>
    if 0 = get_value child.2 0 then
      .error (.parse_exception ("key '" ++ child.1 ++ "' does not map to a positive integer"))
    else load_rubric_loop rest (result ++ [⟨child.1, get_value child.2 0⟩])

/-- The function `load_rubric`, from the outcome of `read_json` on the file: an
error message of the JSON reader, or the tree. -/
def load_rubric (parsed : Except String ptree) : Except Failure rubric :=
  match parsed with
  | .error message => .error (.parse_exception ("error parsing JSON: " ++ message))
  | .ok tree =>
    match load_rubric_loop tree [] with
    | .error e => .error e
    | .ok result =>
      if result.isEmpty then
        .error (.parse_exception "JSON does not contain any rubric items")
      else .ok result

/-- The class `rubric_item_score`. -/
structure rubric_item_score where
  item_ : Option rubric_item
  is_correct_ : Bool
deriving DecidableEq, Repr

/-- The method `rubric_item_score::is_valid`: `bool(item_)`. -/
def rubric_item_score.is_valid (s : rubric_item_score) : Bool :=
  s.item_.isSome

/-- The constructor `rubric_item_score(item, is_correct)` with its two asserts
`nullptr != item` and `is_valid()`. -/
def rubric_item_score.ctor (item : Option rubric_item) (is_correct : Bool) :
    Except Failure rubric_item_score :=
  if item.isSome then
    if rubric_item_score.is_valid ⟨item, is_correct⟩ then .ok ⟨item, is_correct⟩
    else .error .assertion
  else .error .assertion

/-- The method `rubric_item_score::item`: `assert(is_valid()); return *item_;`. -/
def rubric_item_score.item (s : rubric_item_score) : Except Failure rubric_item :=
  match s.item_ with
  | some it => .ok it
  | none => .error .assertion

/-- The method `rubric_item_score::possible_points`. -/
def rubric_item_score.possible_points (s : rubric_item_score) : Except Failure Nat :=
  match s.item_ with
  | some it => .ok it.points
  | none => .error .assertion

/-- The method `rubric_item_score::earned_points`. -/
def rubric_item_score.earned_points (s : rubric_item_score) : Except Failure Nat :=
  if s.is_valid then
    if s.is_correct_ then s.possible_points else .ok 0
  else .error .assertion

/-- The type `rubric_score`, a `std::vector<rubric_item_score>`. -/
abbrev rubric_score := List rubric_item_score

/-- The loop `for (auto& item : the_rubric)` of `evaluate_score`; `result` is the
vector built so far. -/
def evaluate_score_loop (the_results : test_results) :
    List rubric_item → rubric_score → Except Failure rubric_score
  | [], result => .ok result
  | item :: rest, result =>
    match test_results.find the_results item.name with
    | none =>
      .error (.parse_exception ("testsuite '" ++ item.name ++
        "' from rubric cannot be found in googletest result XML"))
    | some suite =>
      if item.name = suite.name then
        match rubric_item_score.ctor (some item) (decide (0 = suite.failures)) with
        | .error e => .error e
        | .ok score => evaluate_score_loop the_results rest (result ++ [score])
      else .error .assertion

/-- The function `evaluate_score`. -/
def evaluate_score (the_rubric : rubric) (the_results : test_results) :
    Except Failure rubric_score :=
  evaluate_score_loop the_results the_rubric []

/-- Every key of the results map is the name stored in its suite, as
`result[name] = testsuite(name, ...)` of `load_test_results` makes it. -/
def WellKeyed (the_results : test_results) : Prop :=
  ∀ name suite, test_results.find the_results name = some suite → suite.name = name

/-! ## `load_test_results` and `print_score` -/

/-- The `<xmlattr>` node of a `<testsuite>` element as `load_test_results` reads
it: the attribute `name` when present, and the outcome of decoding each of the
five counters as an `unsigned` (`none` when absent or not decodable). -/
structure xmlattr where
  name : Option String
  tests : Option Nat
  failures : Option Nat
  disabled : Option Nat
  errors : Option Nat
  time : Option Nat
deriving DecidableEq, Repr

/-- The part of the tree read by `read_xml` that `load_test_results` looks at:
the outcome of `tree.get_child("testsuites")`, which is the text of a
`ptree_error` or the children in document order, each with its tag and with
the outcome of `get_child("<xmlattr>")` on it. -/
structure xml_tree where
  testsuites : Except String (List (String × Except String xmlattr))

/-- The assignment `result[name] = suite` on the `std::map`: the entry of an
existing key is overwritten, a new key is inserted at its place in key order
(`name.data < key.data` is the order `name < key` of strings). -/
def test_results.assign (the_results : test_results) (name : String) (suite : testsuite) :
    test_results :=
  match the_results with
  | [] => [(name, suite)]
  | (key, s) :: rest =>
    if name = key then (name, suite) :: rest
    else if name.data < key.data then (name, suite) :: (key, s) :: rest
    else (key, s) :: test_results.assign rest name suite

/-- The loop `for (auto& child : testsuites)` of `load_test_results`. -/
def load_test_results_loop :
    List (String × Except String xmlattr) → test_results → Except Failure test_results
  | [], result => .ok result
  | child :: rest, result =>
    if child.1 = "testsuite" then
      match child.2 with
      | .error what => .error (.parse_exception ("error decoding XML: " ++ what))
      | .ok attributes =>
        if attributes.name.getD "" = "" then
          .error (.parse_exception "error parsing XML: a <testsuite> has no name=")
        else
          load_test_results_loop rest
            (test_results.assign result (attributes.name.getD "")
              ⟨attributes.name.getD "", get_value attributes.tests 0,
                get_value attributes.failures 0, get_value attributes.disabled 0,
                get_value attributes.errors 0, get_value attributes.time 0⟩)
    else load_test_results_loop rest result

/-- The function `load_test_results`, from the outcome of `read_xml` on the
file: an error message of the XML reader, or the tree. -/
def load_test_results (parsed : Except String xml_tree) : Except Failure test_results :=
  match parsed with
  | .error message => .error (.parse_exception ("error parsing XML: " ++ message))
  | .ok tree =>
    match tree.testsuites with
    | .error what => .error (.parse_exception ("error decoding XML: " ++ what))
    | .ok testsuites =>
      match load_test_results_loop testsuites [] with
      | .error e => .error e
      | .ok result =>
        if result.isEmpty then
          .error (.parse_exception "error parsing XML: does not contain any <testsuite> nodes")
        else .ok result

/-- The first loop of `print_score`:
`name_width = std::max(name_width, unsigned(score.item().name().size()))`. -/
def name_width_loop : List rubric_item_score → Nat → Except Failure Nat
  | [], name_width => .ok name_width
  | score :: rest, name_width =>
    match score.item with
    | .error e => .error e
    | .ok item => name_width_loop rest (max name_width (item.name.length % 4294967296))

/-- The function `print_score` up to and including its `assert(name_width > 0)`;
the value is `name_width`. The printing that follows is not modelled. -/
def print_score_name_width (the_score : rubric_score) : Except Failure Nat :=
  match name_width_loop the_score 0 with
  | .error e => .error e
  | .ok name_width => if name_width > 0 then .ok name_width else .error .assertion

/-- A name of `2^32` characters, all of them `a`. -/
def wideName : String :=
  String.mk (List.replicate 4294967296 'a')

/-- No key of the results map is the empty string. -/
def KeysNonEmpty (the_results : test_results) : Prop :=
  ∀ entry ∈ the_results, entry.1 ≠ ""

/-- The score that `evaluate_score` records for a rubric item: a pointer to
the item, marked correct exactly when the suite stored under the item's name
has no failures. -/
def scoreFor (the_results : test_results) (item : rubric_item) : rubric_item_score :=
  ⟨some item,
    match test_results.find the_results item.name with
    | some suite => decide (0 = suite.failures)
    | none => false⟩

/-- The rubric item that `load_rubric` builds from a child of the tree. -/
def itemOf (child : String × Option Nat) : rubric_item :=
  ⟨child.1, get_value child.2 0⟩

end rubricscore

namespace balance

/-! ## Reading elements -/

theorem deref_ok (values : List Int) (i : Nat) (h : i < values.length) :
    deref values i = .ok (values.getD i 0) := by
  simp [deref, List.getD_eq_getElem?_getD, List.getElem?_eq_getElem h]

/-! ## Correctness of `find_dip` -/

theorem FirstDipFrom_here (values : List Int) (i : Nat) (h : isDip values i) :
    FirstDipFrom values i i :=
  Or.inr ⟨h, Nat.le_refl i, fun m h1 h2 => absurd h1 (by omega)⟩

theorem FirstDipFrom_step (values : List Int) (i r : Nat) (h : ¬ isDip values i)
    (hr : FirstDipFrom values (i + 1) r) : FirstDipFrom values i r := by
  have key : ∀ m, i ≤ m → ¬ (i + 1 ≤ m) → ¬ isDip values m := by
    intro m h1 h2
    have : m = i := by omega
    subst this
    exact h
  rcases hr with ⟨h1, h2⟩ | ⟨h1, h2, h3⟩
  · refine Or.inl ⟨h1, fun m hm => ?_⟩
    by_cases hm1 : i + 1 ≤ m
    · exact h2 m hm1
    · exact key m hm hm1
  · refine Or.inr ⟨h1, by omega, fun m hm hlt => ?_⟩
    by_cases hm1 : i + 1 ≤ m
    · exact h3 m hm1 hlt
    · exact key m hm hm1

theorem find_dip_loop_spec (values : List Int) :
    ∀ fuel i, 0 < fuel → values.length ≤ fuel + i + 1 →
      ∃ r, find_dip_loop values fuel i (i + 1) (i + 2) = .ok r ∧ FirstDipFrom values i r := by
  intro fuel
  induction fuel with
  | zero => intro i h; omega
  | succ f ih =>
    intro i _ hn
    unfold find_dip_loop
    by_cases hk : i + 2 < values.length
    · obtain ⟨r, hr, hspec⟩ := ih (i + 1) (by omega) (by omega)
      rw [if_pos hk, deref_ok values i (by omega), deref_ok values (i + 2) hk,
        deref_ok values (i + 1) (by omega)]
      dsimp only
      by_cases hac : values.getD i 0 = values.getD (i + 2) 0
      · rw [if_pos hac]
        by_cases hb : values.getD (i + 1) 0 < values.getD i 0
        · rw [if_pos hb]
          exact ⟨i, rfl, FirstDipFrom_here values i ⟨hk, hac, hb⟩⟩
        · rw [if_neg hb]
          exact ⟨r, hr, FirstDipFrom_step values i r (fun hd => hb hd.2.2) hspec⟩
      · rw [if_neg hac]
        exact ⟨r, hr, FirstDipFrom_step values i r (fun hd => hac hd.2.1) hspec⟩
    · rw [if_neg hk]
      refine ⟨_, rfl, Or.inl ⟨rfl, ?_⟩⟩
      intro m hm hd
      have := hd.1
      omega

/-- The scan of `find_dip` returns normally, and its result is the end when
there is no dip and the least dip start otherwise. -/
theorem find_dip_spec (values : List Int) :
    ∃ r, find_dip values = .ok r ∧ FirstDipFrom values 0 r :=
  find_dip_loop_spec values (values.length + 1) 0 (by omega) (by omega)

/-! ## Arithmetic of the 32-bit accumulator -/

theorem wrap32_zero : wrap32 0 = 0 := by
  unfold wrap32; omega

theorem wrap32_add_wrap32 (a x : Int) : wrap32 (wrap32 a + x) = wrap32 (a + x) := by
  unfold wrap32; omega

theorem wrap32_eq_zero_iff (x : Int) : wrap32 x = 0 ↔ x % 4294967296 = 0 := by
  unfold wrap32; omega

theorem wrap32_of_exact_zero (x : Int) (h : x = 0) : wrap32 x = 0 := by
  subst h; exact wrap32_zero

/-! ## Range sums -/

theorem rangeSum_self (values : List Int) (b : Nat) : rangeSum values b b = 0 := by
  simp [rangeSum]

theorem rangeSum_cons (values : List Int) (b e : Nat) (hb : b < e) (he : e ≤ values.length) :
    rangeSum values b e = values.getD b 0 + rangeSum values (b + 1) e := by
  have hlt : b < values.length := by omega
  have hd : values.drop b = values.getD b 0 :: values.drop (b + 1) := by
    rw [List.drop_eq_getElem_cons hlt]
    simp [List.getD_eq_getElem?_getD, List.getElem?_eq_getElem hlt]
  have hlen : e - b = (e - (b + 1)) + 1 := by omega
  unfold rangeSum
  rw [hd, hlen, List.take_succ_cons, List.sum_cons]

theorem accumulate_spec (values : List Int) :
    ∀ fuel first last a, first ≤ last → last ≤ values.length → last - first < fuel →
      accumulate values fuel first last (wrap32 a)
        = .ok (wrap32 (a + rangeSum values first last)) := by
  intro fuel
  induction fuel with
  | zero => intro first last a _ _ h; omega
  | succ f ih =>
    intro first last a h1 h2 h3
    unfold accumulate
    by_cases hfl : first = last
    · subst hfl
      simp [rangeSum_self]
    · rw [if_pos hfl, deref_ok values first (by omega)]
      dsimp only
      rw [wrap32_add_wrap32, ih (first + 1) last _ (by omega) h2 (by omega),
        rangeSum_cons values first last (by omega) h2, add_assoc]

/-- The call `std::accumulate(i, j, 0)` on a range inside the vector returns
the wrapped exact sum of the range. -/
theorem accumulate_zero (values : List Int) (i j : Nat) (h1 : i ≤ j)
    (h2 : j ≤ values.length) :
    accumulate values (values.length + 1) i j 0 = .ok (wrap32 (rangeSum values i j)) := by
  have h := accumulate_spec values (values.length + 1) i j 0 h1 h2 (by omega)
  rw [wrap32_zero, zero_add] at h
  exact h

/-! ## The loop invariant of `longest_balanced_span` -/

theorem Inv_congr (values : List Int) (seen seen1 : Nat → Nat → Prop) (best : Option span)
    (h : ∀ b e, Cand values b e → seen1 b e → seen b e) (hinv : Inv values seen best) :
    Inv values seen1 best := by
  cases best with
  | none => exact fun b e hc hs => hinv b e hc (h b e hc hs)
  | some s => exact ⟨hinv.1, fun b e hc hs => hinv.2 b e hc (h b e hc hs)⟩

theorem span_size_of_lt (b e : Nat) (h : b < e) : span.size ⟨b, e⟩ = e - b := by
  simp [span.size, Nat.le_of_lt h]

/-- One candidate more: the update `if (!best || cand.size() >= best->size())
best = cand` keeps the invariant when the pair `(i, j)` is a candidate. -/
theorem Inv_update (values : List Int) (i j : Nat) (best : Option span)
    (hc : Cand values i j) (hinv : Inv values (Seen i j) best) :
    Inv values (Seen i (j + 1)) (if replaces best ⟨i, j⟩ then some ⟨i, j⟩ else best) := by
  have hsplit : ∀ b e, Seen i (j + 1) b e → Seen i j b e ∨ (b = i ∧ e = j) := by
    intro b e hs
    unfold Seen at hs ⊢
    omega
  cases best with
  | none =>
    simp only [replaces, if_true]
    refine ⟨hc, fun b e hbe hs => ?_⟩
    rcases hsplit b e hs with h | ⟨h1, h2⟩
    · exact absurd h (hinv b e hbe)
    · subst h1; subst h2
      exact Or.inr ⟨rfl, Nat.le_refl _⟩
  | some s =>
    obtain ⟨hs1, hs2⟩ := hinv
    have hsz : span.size ⟨i, j⟩ = j - i := span_size_of_lt i j hc.1
    have hss : span.size s = s.end_ - s.begin_ := span_size_of_lt s.begin_ s.end_ hs1.1
    by_cases hge : j - i ≥ s.end_ - s.begin_
    · have hrep : replaces (some s) ⟨i, j⟩ = true := by
        simp only [replaces, hsz, hss, decide_eq_true_eq]
        exact hge
      rw [hrep, if_pos rfl]
      refine ⟨hc, fun b e hbe hs => ?_⟩
      show e - b < j - i ∨ (e - b = j - i ∧ b ≤ i)
      rcases hsplit b e hs with h | ⟨h1, h2⟩
      · have hle : b ≤ i := by unfold Seen at h; omega
        have := hs2 b e hbe h
        omega
      · subst h1; subst h2
        exact Or.inr ⟨rfl, Nat.le_refl _⟩
    · have hrep : replaces (some s) ⟨i, j⟩ = false := by
        simp only [replaces, hsz, hss, decide_eq_false_iff_not]
        exact hge
      rw [hrep]
      simp only [Bool.false_eq_true, if_false]
      refine ⟨hs1, fun b e hbe hs => ?_⟩
      rcases hsplit b e hs with h | ⟨h1, h2⟩
      · exact hs2 b e hbe h
      · subst h1; subst h2
        left; omega

/-- A pair that is not a candidate changes nothing. -/
theorem Inv_skip (values : List Int) (i j : Nat) (best : Option span)
    (hc : ¬ Cand values i j) (hinv : Inv values (Seen i j) best) :
    Inv values (Seen i (j + 1)) best := by
  refine Inv_congr values _ _ best (fun b e hbe hs => ?_) hinv
  by_cases h : b = i ∧ e = j
  · obtain ⟨h1, h2⟩ := h
    subst h1; subst h2
    exact absurd hbe hc
  · unfold Seen at hs ⊢
    omega

theorem lbs_inner_spec (values : List Int) (i : Nat) :
    ∀ fuel j best, i < j → j ≤ values.length + 1 → values.length + 2 ≤ fuel + j →
      Inv values (Seen i j) best →
      ∃ r, lbs_inner values i fuel j best = .ok r ∧
        Inv values (Seen i (values.length + 1)) r := by
  intro fuel
  induction fuel with
  | zero => intro j best _ h1 h2; omega
  | succ f ih =>
    intro j best hij hj hf hinv
    unfold lbs_inner
    by_cases hjn : j ≤ values.length
    · rw [if_pos hjn, accumulate_zero values i j (Nat.le_of_lt hij) hjn]
      dsimp only
      by_cases hz : 0 = wrap32 (rangeSum values i j)
      · have hc : Cand values i j := ⟨hij, hjn, hz.symm⟩
        have hupd := Inv_update values i j best hc hinv
        rw [if_pos hz]
        simp only [span.ctor, if_pos hij]
        by_cases hrep : replaces best ⟨i, j⟩ = true
        · rw [if_pos hrep] at hupd ⊢
          exact ih (j + 1) _ (by omega) (by omega) (by omega) hupd
        · rw [if_neg hrep] at hupd ⊢
          exact ih (j + 1) _ (by omega) (by omega) (by omega) hupd
      · have hc : ¬ Cand values i j := fun h => hz h.2.2.symm
        rw [if_neg hz]
        exact ih (j + 1) _ (by omega) (by omega) (by omega) (Inv_skip values i j best hc hinv)
    · rw [if_neg hjn]
      have : j = values.length + 1 := by omega
      subst this
      exact ⟨best, rfl, hinv⟩

theorem lbs_outer_spec (values : List Int) :
    ∀ fuel i best, i ≤ values.length → values.length + 1 ≤ fuel + i →
      Inv values (Seen i (i + 1)) best →
      ∃ r, lbs_outer values fuel i best = .ok r ∧ Inv values (fun _ _ => True) r := by
  intro fuel
  induction fuel with
  | zero =>
    intro i best h1 h2; omega
  | succ f ih =>
    intro i best hi hf hinv
    unfold lbs_outer
    by_cases hin : i = values.length
    · rw [if_neg (not_not.mpr hin)]
      refine ⟨best, rfl, Inv_congr values _ _ best (fun b e hbe _ => ?_) hinv⟩
      have h1 := hbe.1
      have h2 := hbe.2.1
      unfold Seen
      omega
    · rw [if_pos hin]
      obtain ⟨r, hr, hrinv⟩ := lbs_inner_spec values i (values.length + 1) (i + 1)
        best (by omega) (by omega) (by omega) hinv
      rw [hr]
      dsimp only
      refine ih (i + 1) r (by omega) (by omega)
        (Inv_congr values _ _ r (fun b e hbe hs => ?_) hrinv)
      have h1 := hbe.1
      have h2 := hbe.2.1
      unfold Seen at hs ⊢
      omega

/-- The search returns normally, and its result is the right answer for all the
candidates: no span when there is no candidate, and otherwise a candidate of
greatest length that starts latest among the candidates of that length. -/
theorem longest_balanced_span_spec (values : List Int) :
    ∃ r, longest_balanced_span values = .ok r ∧ Inv values (fun _ _ => True) r := by
  refine lbs_outer_spec values (values.length + 1) 0 none (by omega) (by omega) ?_
  intro b e hbe hs
  have h1 := hbe.1
  unfold Seen at hs
  omega

theorem longest_balanced_span_some_inv (values : List Int) (b e : Nat)
    (h : longest_balanced_span values = .ok (some ⟨b, e⟩)) :
    Cand values b e ∧ ∀ b1 e1, Cand values b1 e1 →
      e1 - b1 < e - b ∨ (e1 - b1 = e - b ∧ b1 ≤ b) := by
  obtain ⟨r, hr, hinv⟩ := longest_balanced_span_spec values
  rw [h] at hr
  cases hr
  exact ⟨hinv.1, fun b1 e1 hc => hinv.2 b1 e1 hc trivial⟩

theorem longest_balanced_span_none_inv (values : List Int)
    (h : longest_balanced_span values = .ok none) (b e : Nat) : ¬ Cand values b e := by
  obtain ⟨r, hr, hinv⟩ := longest_balanced_span_spec values
  rw [h] at hr
  cases hr
  exact fun hc => hinv b e hc trivial

theorem Cand_of_exact (values : List Int) (b e : Nat) (h1 : b < e)
    (h2 : e ≤ values.length) (h3 : rangeSum values b e = 0) : Cand values b e :=
  ⟨h1, h2, wrap32_of_exact_zero _ h3⟩

theorem wrap32_of_fits32 (x : Int) (h : fits32 x) : wrap32 x = x := by
  unfold fits32 at h
  unfold wrap32
  omega

theorem exact_of_Cand (values : List Int) (hno : NoOverflow values) (b e : Nat)
    (h : Cand values b e) : rangeSum values b e = 0 := by
  have hfit := hno e h.2.1 b (Nat.le_of_lt h.1)
  rw [← wrap32_of_fits32 _ hfit]
  exact h.2.2

theorem rangeSum_replicate_zero (n : Nat) : rangeSum (List.replicate n 0) 0 n = 0 := by
  simp [rangeSum]

/-! ## Claims about `find_dip` and `longest_balanced_span` -/

/-- Claim C1, the code at the failing input: the vector `[8, 2, 8, 5, 3, 5]` has a
dip starting at index 0 and a later dip starting at index 3, and `find_dip`
returns position 0, the first dip, instead of the last one. -/
theorem find_dip_two_dips_returns_first :
    isDip [8, 2, 8, 5, 3, 5] 0 ∧ isDip [8, 2, 8, 5, 3, 5] 3 ∧
      find_dip [8, 2, 8, 5, 3, 5] = .ok 0 :=
  ⟨by decide, by decide, rfl⟩

/-- Claim C2, the code at the failing input: on `[-2147483648, -2147483648]`
the accumulator overflows, and the search returns the span `[0, 2)` although its
elements sum to `-4294967296`, not to zero. -/
theorem longest_balanced_span_overflow_unbalanced :
    longest_balanced_span [-2147483648, -2147483648] = .ok (some ⟨0, 2⟩) ∧
      rangeSum [-2147483648, -2147483648] 0 2 = -4294967296 :=
  ⟨rfl, by decide⟩

/-- Away from the overflow of the accumulator the returned span is balanced: if
`longest_balanced_span` returns the span `[b, e)` then `b < e ≤ length`, the
accumulator read zero on `[b, e)`, and when the exact sum of every contiguous
range fits in a signed 32-bit `int` the elements sum to exactly zero. -/
theorem longest_balanced_span_sum_zero (values : List Int) (b e : Nat)
    (h : longest_balanced_span values = .ok (some ⟨b, e⟩)) :
    b < e ∧ e ≤ values.length ∧ rangeSum values b e % 4294967296 = 0 ∧
      (NoOverflow values → rangeSum values b e = 0) := by
  have hc := (longest_balanced_span_some_inv values b e h).1
  exact ⟨hc.1, hc.2.1, (wrap32_eq_zero_iff _).mp hc.2.2,
    fun hno => exact_of_Cand values hno b e hc⟩

theorem longest_balanced_span_sum_zero_witness :
    longest_balanced_span [8, 5, -5, 7] = .ok (some ⟨1, 3⟩) ∧ NoOverflow [8, 5, -5, 7] ∧
      (1 < 3 ∧ 3 ≤ [(8 : Int), 5, -5, 7].length ∧
        rangeSum [8, 5, -5, 7] 1 3 % 4294967296 = 0 ∧ rangeSum [8, 5, -5, 7] 1 3 = 0) :=
  ⟨rfl, by decide,
    (longest_balanced_span_sum_zero [8, 5, -5, 7] 1 3 (by rfl)).1,
    (longest_balanced_span_sum_zero [8, 5, -5, 7] 1 3 (by rfl)).2.1,
    (longest_balanced_span_sum_zero [8, 5, -5, 7] 1 3 (by rfl)).2.2.1,
    (longest_balanced_span_sum_zero [8, 5, -5, 7] 1 3 (by rfl)).2.2.2 (by decide)⟩

/-- Claim C3: if `longest_balanced_span` returns the span `[b, e)`, then no
non-empty contiguous range `[b1, e1)` of the vector whose elements sum to zero
is longer than `[b, e)`. -/
theorem longest_balanced_span_longest (values : List Int) (b e : Nat)
    (h : longest_balanced_span values = .ok (some ⟨b, e⟩))
    (b1 e1 : Nat) (h1 : b1 < e1) (h2 : e1 ≤ values.length)
    (h3 : rangeSum values b1 e1 = 0) : e1 - b1 ≤ e - b := by
  have := (longest_balanced_span_some_inv values b e h).2 b1 e1
    (Cand_of_exact values b1 e1 h1 h2 h3)
  omega

theorem longest_balanced_span_longest_witness :
    longest_balanced_span [4, 3, -3, 2, 0, 8] = .ok (some ⟨1, 3⟩) ∧ 4 < 5 ∧
      5 ≤ [(4 : Int), 3, -3, 2, 0, 8].length ∧ rangeSum [4, 3, -3, 2, 0, 8] 4 5 = 0 ∧
      5 - 4 ≤ 3 - 1 :=
  ⟨rfl, by decide, by decide, by decide,
    longest_balanced_span_longest [4, 3, -3, 2, 0, 8] 1 3 (by rfl) 4 5 (by decide) (by decide)
      (by decide)⟩

/-- Claim C4: if `longest_balanced_span` returns the span `[b, e)` and `[b1, e1)`
is a contiguous range of the vector that sums to zero and has the same length,
then `b1 ≤ b`: among the longest the returned span starts latest. -/
theorem longest_balanced_span_latest (values : List Int) (b e : Nat)
    (h : longest_balanced_span values = .ok (some ⟨b, e⟩))
    (b1 e1 : Nat) (h2 : e1 ≤ values.length) (h3 : rangeSum values b1 e1 = 0)
    (h4 : e1 - b1 = e - b) : b1 ≤ b := by
  obtain ⟨hc, hmax⟩ := longest_balanced_span_some_inv values b e h
  have hbe := hc.1
  have := hmax b1 e1 (Cand_of_exact values b1 e1 (by omega) h2 h3)
  omega

theorem longest_balanced_span_latest_witness :
    longest_balanced_span [3, 2, -2, 3, -4, 4, 3] = .ok (some ⟨4, 6⟩) ∧
      3 ≤ [(3 : Int), 2, -2, 3, -4, 4, 3].length ∧
      rangeSum [3, 2, -2, 3, -4, 4, 3] 1 3 = 0 ∧ 3 - 1 = 6 - 4 ∧ 1 ≤ 4 :=
  ⟨rfl, by decide, by decide, by decide,
    longest_balanced_span_latest [3, 2, -2, 3, -4, 4, 3] 4 6 (by rfl) 1 3 (by decide) (by decide)
      (by decide)⟩

/-- Claim C5, the code at the failing input: no non-empty contiguous range of
`[2147483647, 2147483647, 2]` sums to zero, and yet the search returns the span
`[0, 3)` instead of the empty optional: the accumulator overflows on the sum
`4294967296` and reads zero. -/
theorem longest_balanced_span_overflow_not_empty :
    (∀ b e, b < e → e ≤ [(2147483647 : Int), 2147483647, 2].length →
      rangeSum [2147483647, 2147483647, 2] b e ≠ 0) ∧
    longest_balanced_span [2147483647, 2147483647, 2] = .ok (some ⟨0, 3⟩) := by
  refine ⟨fun b e hb he => ?_, rfl⟩
  have he3 : e ≤ 3 := he
  interval_cases e <;> interval_cases b <;> decide

/-- Away from the overflow of the accumulator the empty optional means that
there is no balanced span: if `longest_balanced_span` returns the empty optional
then no non-empty contiguous range of the vector sums to zero; conversely, when
the exact sum of every contiguous range fits in a signed 32-bit `int` and no
non-empty contiguous range sums to zero, it returns the empty optional. -/
theorem longest_balanced_span_empty_iff (values : List Int) :
    (longest_balanced_span values = .ok none →
      ∀ b e, b < e → e ≤ values.length → rangeSum values b e ≠ 0) ∧
    (NoOverflow values →
      (∀ b e, b < e → e ≤ values.length → rangeSum values b e ≠ 0) →
      longest_balanced_span values = .ok none) := by
  constructor
  · intro h b e hb he hz
    exact longest_balanced_span_none_inv values h b e (Cand_of_exact values b e hb he hz)
  · intro hno hnz
    obtain ⟨r, hr, hinv⟩ := longest_balanced_span_spec values
    cases r with
    | none => exact hr
    | some s =>
      have hc : Cand values s.begin_ s.end_ := hinv.1
      exact absurd (exact_of_Cand values hno _ _ hc) (hnz _ _ hc.1 hc.2.1)

theorem longest_balanced_span_empty_iff_witness :
    NoOverflow [5, 2, -1, 8] ∧ longest_balanced_span [5, 2, -1, 8] = .ok none ∧
      (∀ b e, b < e → e ≤ [(5 : Int), 2, -1, 8].length → rangeSum [5, 2, -1, 8] b e ≠ 0) :=
  ⟨by decide,
    (longest_balanced_span_empty_iff [5, 2, -1, 8]).2 (by decide) (fun b e hb he => by
      have he4 : e ≤ 4 := he
      interval_cases e <;> interval_cases b <;> decide),
    (longest_balanced_span_empty_iff [5, 2, -1, 8]).1 rfl⟩

/-- Claim C6: for every vector, `find_dip` returns the past-the-end position if
and only if no index of the vector starts a dip. -/
theorem find_dip_end_iff_no_dip (values : List Int) :
    find_dip values = .ok values.length ↔ ¬ ∃ i, isDip values i := by
  obtain ⟨r, hr, hspec⟩ := find_dip_spec values
  rw [hr]
  constructor
  · intro h
    cases h
    rintro ⟨i, hi⟩
    rcases hspec with ⟨_, hnone⟩ | ⟨hd, _, _⟩
    · exact hnone i (Nat.zero_le i) hi
    · have := hd.1
      omega
  · intro h
    rcases hspec with ⟨hlen, _⟩ | ⟨hd, _, _⟩
    · rw [hlen]
    · exact absurd ⟨r, hd⟩ h

/-- Claim C7: when exactly one index `i` of the vector starts a dip, `find_dip`
returns position `i`. -/
theorem find_dip_unique_dip (values : List Int) (i : Nat) (h : isDip values i)
    (huniq : ∀ m, isDip values m → m = i) : find_dip values = .ok i := by
  obtain ⟨r, hr, hspec⟩ := find_dip_spec values
  rw [hr]
  rcases hspec with ⟨_, hnone⟩ | ⟨hd, _, _⟩
  · exact absurd h (hnone i (Nat.zero_le i))
  · rw [huniq r hd]

theorem find_dip_unique_dip_witness :
    isDip [1, 1, 1, 8, 7, 8, 1] 3 ∧ (∀ m, isDip [1, 1, 1, 8, 7, 8, 1] m → m = 3) ∧
      find_dip [1, 1, 1, 8, 7, 8, 1] = .ok 3 :=
  have huniq : ∀ m, isDip [1, 1, 1, 8, 7, 8, 1] m → m = 3 := by
    intro m hm
    have hlt : m + 2 < 7 := hm.1
    have hm5 : m < 5 := by omega
    interval_cases m
    all_goals first | rfl | exact absurd hm (by decide)
  ⟨by decide, huniq, find_dip_unique_dip [1, 1, 1, 8, 7, 8, 1] 3 (by decide) huniq⟩

/-- Claim C8: for every vector of length 0, 1 or 2, `find_dip` returns the
past-the-end position. -/
theorem find_dip_short (values : List Int) (h : values.length < 3) :
    find_dip values = .ok values.length := by
  obtain ⟨r, hr, hspec⟩ := find_dip_spec values
  rw [hr]
  rcases hspec with ⟨hlen, _⟩ | ⟨hd, _, _⟩
  · rw [hlen]
  · have := hd.1
    omega

theorem find_dip_short_witness :
    [(5 : Int), 6].length < 3 ∧ find_dip [5, 6] = .ok [(5 : Int), 6].length :=
  ⟨by decide, find_dip_short [5, 6] (by decide)⟩

/-- Claim C9, the code at the failing input: the only contiguous range of
`[0, -2147483648, -2147483648]` that sums to zero is `[0, 1)`, and yet the search
returns `[0, 3)` and not `[0, 1)`: the accumulator overflows on the sum
`-4294967296` and reads zero. -/
theorem longest_balanced_span_overflow_not_unique :
    rangeSum [0, -2147483648, -2147483648] 0 1 = 0 ∧
    (∀ b e, b < e → e ≤ [(0 : Int), -2147483648, -2147483648].length →
      rangeSum [0, -2147483648, -2147483648] b e = 0 → b = 0 ∧ e = 1) ∧
    longest_balanced_span [0, -2147483648, -2147483648] = .ok (some ⟨0, 3⟩) ∧
    longest_balanced_span [0, -2147483648, -2147483648] ≠ .ok (some ⟨0, 1⟩) := by
  refine ⟨by decide, ?_, rfl, ?_⟩
  · intro b e hb he
    have he3 : e ≤ 3 := he
    interval_cases e <;> interval_cases b <;> decide
  · intro h
    have hsome : longest_balanced_span [0, -2147483648, -2147483648] = .ok (some ⟨0, 3⟩) := rfl
    rw [hsome] at h
    cases h

/-- Away from the overflow of the accumulator a single balanced span is the
one returned: when the exact sum of every contiguous range fits in a signed
32-bit `int` and `[b, e)` is the only non-empty contiguous range of the vector
that sums to zero, `longest_balanced_span` returns the span `[b, e)`. -/
theorem longest_balanced_span_unique (values : List Int) (b e : Nat)
    (hno : NoOverflow values) (hb : b < e) (he : e ≤ values.length)
    (hz : rangeSum values b e = 0)
    (huniq : ∀ b1 e1, b1 < e1 → e1 ≤ values.length → rangeSum values b1 e1 = 0 →
      b1 = b ∧ e1 = e) :
    longest_balanced_span values = .ok (some ⟨b, e⟩) := by
  obtain ⟨r, hr, hinv⟩ := longest_balanced_span_spec values
  rw [hr]
  cases r with
  | none => exact absurd trivial (hinv b e (Cand_of_exact values b e hb he hz))
  | some s =>
    have hc : Cand values s.begin_ s.end_ := hinv.1
    obtain ⟨h1, h2⟩ := huniq _ _ hc.1 hc.2.1 (exact_of_Cand values hno _ _ hc)
    cases s
    simp only at h1 h2
    rw [h1, h2]

theorem longest_balanced_span_unique_witness :
    NoOverflow [5, 0, -1, 8] ∧ 1 < 2 ∧ 2 ≤ [(5 : Int), 0, -1, 8].length ∧
      rangeSum [5, 0, -1, 8] 1 2 = 0 ∧
      (∀ b1 e1, b1 < e1 → e1 ≤ [(5 : Int), 0, -1, 8].length →
        rangeSum [5, 0, -1, 8] b1 e1 = 0 → b1 = 1 ∧ e1 = 2) ∧
      longest_balanced_span [5, 0, -1, 8] = .ok (some ⟨1, 2⟩) :=
  have huniq : ∀ b1 e1, b1 < e1 → e1 ≤ [(5 : Int), 0, -1, 8].length →
      rangeSum [5, 0, -1, 8] b1 e1 = 0 → b1 = 1 ∧ e1 = 2 := by
    intro b1 e1 hb he
    have he4 : e1 ≤ 4 := he
    interval_cases e1 <;> interval_cases b1 <;> decide
  ⟨by decide, by decide, by decide, by decide, huniq,
    longest_balanced_span_unique [5, 0, -1, 8] 1 2 (by decide) (by decide) (by decide)
      (by decide) huniq⟩

/-- Claim C10: for every `n ≥ 1`, `longest_balanced_span` applied to the vector
of `n` zeros returns the span `[0, n)` that covers the whole vector. -/
theorem longest_balanced_span_zeros (n : Nat) (h : 1 ≤ n) :
    longest_balanced_span (List.replicate n 0) = .ok (some ⟨0, n⟩) := by
  obtain ⟨r, hr, hinv⟩ := longest_balanced_span_spec (List.replicate n 0)
  have hall : Cand (List.replicate n 0) 0 n :=
    Cand_of_exact _ 0 n (by omega) (by simp) (rangeSum_replicate_zero n)
  rw [hr]
  cases r with
  | none => exact absurd trivial (hinv 0 n hall)
  | some s =>
    have hc : Cand (List.replicate n 0) s.begin_ s.end_ := hinv.1
    have h1 := hc.1
    have h2 : s.end_ ≤ n := by simpa using hc.2.1
    have h3 := hinv.2 0 n hall trivial
    cases s with
    | mk sb se =>
      simp only at h1 h2 h3
      have hb0 : sb = 0 := by omega
      have hen : se = n := by omega
      rw [hb0, hen]

theorem longest_balanced_span_zeros_witness :
    1 ≤ 500 ∧ longest_balanced_span (List.replicate 500 0) = .ok (some ⟨0, 500⟩) :=
  ⟨by decide, longest_balanced_span_zeros 500 (by decide)⟩

/-! ## Further facts about the two searches -/

theorem longest_balanced_span_whole (values : List Int)
    (h : Cand values 0 values.length) :
    longest_balanced_span values = .ok (some ⟨0, values.length⟩) := by
  obtain ⟨r, hr, hinv⟩ := longest_balanced_span_spec values
  rw [hr]
  cases r with
  | none => exact absurd trivial (hinv 0 values.length h)
  | some s =>
    have hc : Cand values s.begin_ s.end_ := hinv.1
    have h1 := hc.1
    have h2 := hc.2.1
    have h3 := hinv.2 0 values.length h trivial
    cases s with
    | mk sb se =>
      simp only at h1 h2 h3
      have hb0 : sb = 0 := by omega
      have hen : se = values.length := by omega
      rw [hb0, hen]

theorem rangeSum_whole (values : List Int) : rangeSum values 0 values.length = values.sum := by
  simp [rangeSum]

theorem natAbs_sum_le (l : List Int) : l.sum.natAbs ≤ (l.map Int.natAbs).sum := by
  induction l with
  | nil => simp
  | cons x xs ih =>
    simp only [List.sum_cons, List.map_cons]
    have := Int.natAbs_add_le x xs.sum
    omega

theorem absSum_sublist (l1 l2 : List Int) (h : l1.Sublist l2) : absSum l1 ≤ absSum l2 := by
  unfold absSum
  exact List.Sublist.sum_le_sum (h.map Int.natAbs) (fun a _ => Nat.zero_le a)

theorem rangeSum_natAbs_le (values : List Int) (b e : Nat) :
    (rangeSum values b e).natAbs ≤ absSum values := by
  have hsub : ((values.drop b).take (e - b)).Sublist values :=
    (List.take_sublist _ _).trans (List.drop_sublist _ _)
  exact Nat.le_trans (natAbs_sum_le _) (absSum_sublist _ _ hsub)

theorem fits32_rangeSum_of_absSum (values : List Int) (h : absSum values ≤ 2147483647)
    (b e : Nat) : fits32 (rangeSum values b e) := by
  have := rangeSum_natAbs_le values b e
  unfold fits32
  omega

/-! ## Claims about the whole vector, `span`, safety and overflow -/

/-- Claim C11: for every non-empty vector whose elements all together sum to
zero, `longest_balanced_span` returns the span `[0, length)` that covers the
whole vector. -/
theorem longest_balanced_span_total_zero (values : List Int) (hne : values ≠ [])
    (hz : values.sum = 0) :
    longest_balanced_span values = .ok (some ⟨0, values.length⟩) := by
  have hpos : 0 < values.length := List.length_pos.mpr hne
  exact longest_balanced_span_whole values
    (Cand_of_exact values 0 values.length hpos (Nat.le_refl _)
      (by rw [rangeSum_whole]; exact hz))

theorem longest_balanced_span_total_zero_witness :
    [(6 : Int), -2, -5, 1] ≠ [] ∧ [(6 : Int), -2, -5, 1].sum = 0 ∧
      longest_balanced_span [6, -2, -5, 1] = .ok (some ⟨0, [(6 : Int), -2, -5, 1].length⟩) :=
  ⟨by decide, by decide, longest_balanced_span_total_zero [6, -2, -5, 1] (by decide) (by decide)⟩

/-- Claim C12: the constructor of `span` succeeds if and only if
`begin < end`; with `begin ≥ end` it fails on its assertion; and a span it
returns has the two positions given, size `end - begin`, and size at least 1. -/
theorem span_ctor_iff (b e : Nat) :
    ((∃ s, span.ctor b e = .ok s) ↔ b < e) ∧
    (e ≤ b → span.ctor b e = .error .assertion) ∧
    (∀ s, span.ctor b e = .ok s →
      s.begin_ = b ∧ s.end_ = e ∧ span.size s = e - b ∧ 1 ≤ span.size s) := by
  by_cases h : b < e
  · have hok : span.ctor b e = .ok ⟨b, e⟩ := by simp [span.ctor, h]
    refine ⟨⟨fun _ => h, fun _ => ⟨_, hok⟩⟩, fun hle => absurd h (by omega), ?_⟩
    intro s hs
    rw [hok] at hs
    cases hs
    rw [span_size_of_lt b e h]
    exact ⟨rfl, rfl, rfl, by omega⟩
  · have herr : span.ctor b e = .error .assertion := by simp [span.ctor, h]
    refine ⟨⟨?_, fun hlt => absurd hlt h⟩, fun _ => herr, ?_⟩
    · rintro ⟨s, hs⟩
      rw [herr] at hs
      cases hs
    · intro s hs
      rw [herr] at hs
      cases hs

theorem span_ctor_iff_witness :
    (1 < 3 ∧ ∃ s, span.ctor 1 3 = .ok s) ∧
    (2 ≤ 2 ∧ span.ctor 2 2 = .error .assertion) ∧
    (span.ctor 1 3 = .ok ⟨1, 3⟩ ∧ span.size ⟨1, 3⟩ = 3 - 1 ∧ 1 ≤ span.size ⟨1, 3⟩) :=
  ⟨⟨by decide, (span_ctor_iff 1 3).1.mpr (by decide)⟩,
    ⟨Nat.le_refl 2, (span_ctor_iff 2 2).2.1 (Nat.le_refl 2)⟩,
    ⟨rfl, ((span_ctor_iff 1 3).2.2 ⟨1, 3⟩ rfl).2.2.1,
      ((span_ctor_iff 1 3).2.2 ⟨1, 3⟩ rfl).2.2.2⟩⟩

/-- Claim C13: for every vector, the empty one included,
`longest_balanced_span` returns normally: no read falls outside the vector, the
assertion of the `span` constructor never fails, and a returned span `[b, e)`
has `b < e ≤ length`. -/
theorem longest_balanced_span_no_fault (values : List Int) :
    ∃ r, longest_balanced_span values = .ok r ∧
      ∀ s, r = some s → s.begin_ < s.end_ ∧ s.end_ ≤ values.length := by
  obtain ⟨r, hr, hinv⟩ := longest_balanced_span_spec values
  refine ⟨r, hr, fun s hs => ?_⟩
  subst hs
  have hc : Cand values s.begin_ s.end_ := hinv.1
  exact ⟨hc.1, hc.2.1⟩

/-- Claim C14: for every vector, lengths 0, 1 and 2 included, `find_dip`
returns normally: every element the scan reads lies inside the vector, and the
position returned is at most the end. -/
theorem find_dip_no_fault (values : List Int) :
    ∃ r, find_dip values = .ok r ∧ r ≤ values.length := by
  obtain ⟨r, hr, hspec⟩ := find_dip_spec values
  refine ⟨r, hr, ?_⟩
  rcases hspec with ⟨hlen, _⟩ | ⟨hd, _, _⟩
  · omega
  · have := hd.1
    omega

/-- Claim C19: for every vector that contains at least one dip, `find_dip`
returns the start of the first dip: the position returned starts a dip and no
smaller index does. -/
theorem find_dip_first (values : List Int) (h : ∃ i, isDip values i) :
    ∃ r, find_dip values = .ok r ∧ isDip values r ∧ ∀ m, m < r → ¬ isDip values m := by
  obtain ⟨r, hr, hspec⟩ := find_dip_spec values
  obtain ⟨i, hi⟩ := h
  rcases hspec with ⟨_, hnone⟩ | ⟨hd, _, hmin⟩
  · exact absurd hi (hnone i (Nat.zero_le i))
  · exact ⟨r, hr, hd, fun m hm => hmin m (Nat.zero_le m) hm⟩

theorem find_dip_first_witness :
    (∃ i, isDip [1, 8, 2, 8, 5, 3, 5] i) ∧
      ∃ r, find_dip [1, 8, 2, 8, 5, 3, 5] = .ok r ∧ isDip [1, 8, 2, 8, 5, 3, 5] r ∧
        ∀ m, m < r → ¬ isDip [1, 8, 2, 8, 5, 3, 5] m :=
  ⟨⟨4, by decide⟩, find_dip_first [1, 8, 2, 8, 5, 3, 5] ⟨4, by decide⟩⟩

/-- Claim C20: when the absolute values of the elements sum to at most
`2^31 - 1`, the exact sum of every range `[i, j)` inside the vector fits in a
signed 32-bit `int`, and `std::accumulate(i, j, 0)` with its wrapping 32-bit
accumulator returns exactly that sum. -/
theorem accumulate_exact_of_absSum (values : List Int) (h : absSum values ≤ 2147483647)
    (i j : Nat) (hij : i ≤ j) (hj : j ≤ values.length) :
    fits32 (rangeSum values i j) ∧
      accumulate values (values.length + 1) i j 0 = .ok (rangeSum values i j) := by
  have hfit := fits32_rangeSum_of_absSum values h i j
  refine ⟨hfit, ?_⟩
  rw [accumulate_zero values i j hij hj, wrap32_of_fits32 _ hfit]

theorem accumulate_exact_of_absSum_witness :
    absSum [2147483000, -600, 47] ≤ 2147483647 ∧ 0 ≤ 3 ∧
      3 ≤ [(2147483000 : Int), -600, 47].length ∧
      fits32 (rangeSum [2147483000, -600, 47] 0 3) ∧
      accumulate [2147483000, -600, 47] ([(2147483000 : Int), -600, 47].length + 1) 0 3 0
        = .ok (rangeSum [2147483000, -600, 47] 0 3) :=
  ⟨by decide, by decide, by decide,
    (accumulate_exact_of_absSum [2147483000, -600, 47] (by decide) 0 3 (by decide)
      (by decide)).1,
    (accumulate_exact_of_absSum [2147483000, -600, 47] (by decide) 0 3 (by decide)
      (by decide)).2⟩

end balance

namespace rubricscore

/-! ## The loops of `load_rubric` and `evaluate_score` -/

theorem load_rubric_loop_ok :
    ∀ (tree : ptree) (acc r : rubric), load_rubric_loop tree acc = .ok r →
      r = acc ++ tree.map itemOf ∧ ∀ child ∈ tree, 1 ≤ get_value child.2 0 := by
  intro tree
  induction tree with
  | nil =>
    intro acc r h
    simp only [load_rubric_loop] at h
    cases h
    simp
  | cons c rest ih =>
    intro acc r h
    unfold load_rubric_loop at h
    by_cases h0 : 0 = get_value c.2 0
    · rw [if_pos h0] at h
      cases h
    · rw [if_neg h0] at h
      obtain ⟨h1, h2⟩ := ih _ r h
      refine ⟨?_, ?_⟩
      · rw [h1]
        simp [itemOf]
      · intro child hmem
        rcases List.mem_cons.mp hmem with hc | hc
        · subst hc
          omega
        · exact h2 child hc

theorem evaluate_score_loop_ok (the_results : test_results) :
    ∀ (items : List rubric_item) (acc scores : rubric_score),
      evaluate_score_loop the_results items acc = .ok scores →
      scores = acc ++ items.map (scoreFor the_results) ∧
      ∀ item ∈ items, ∃ suite, test_results.find the_results item.name = some suite ∧
        suite.name = item.name := by
  intro items
  induction items with
  | nil =>
    intro acc scores h
    simp only [evaluate_score_loop] at h
    cases h
    simp
  | cons item rest ih =>
    intro acc scores h
    unfold evaluate_score_loop at h
    cases hf : test_results.find the_results item.name with
    | none =>
      rw [hf] at h
      cases h
    | some suite =>
      rw [hf] at h
      dsimp only at h
      by_cases hname : item.name = suite.name
      · rw [if_pos hname] at h
        simp only [rubric_item_score.ctor, rubric_item_score.is_valid, Option.isSome_some,
          if_true] at h
        obtain ⟨h1, h2⟩ := ih _ scores h
        refine ⟨?_, ?_⟩
        · rw [h1]
          simp [scoreFor, hf]
        · intro it hmem
          rcases List.mem_cons.mp hmem with hc | hc
          · subst hc
            exact ⟨suite, hf, hname.symm⟩
          · exact h2 it hc
      · rw [if_neg hname] at h
        cases h

theorem evaluate_score_loop_step (the_results : test_results) (hwk : WellKeyed the_results)
    (item : rubric_item) (rest : List rubric_item) (acc : rubric_score) (suite : testsuite)
    (hf : test_results.find the_results item.name = some suite) :
    evaluate_score_loop the_results (item :: rest) acc
      = evaluate_score_loop the_results rest (acc ++ [scoreFor the_results item]) := by
  have hname : item.name = suite.name := (hwk item.name suite hf).symm
  conv => lhs; unfold evaluate_score_loop
  rw [hf]
  dsimp only
  rw [if_pos hname]
  simp [rubric_item_score.ctor, rubric_item_score.is_valid, scoreFor, hf]

theorem evaluate_score_loop_present (the_results : test_results) (hwk : WellKeyed the_results) :
    ∀ (items : List rubric_item) (acc : rubric_score),
      (∀ item ∈ items, test_results.find the_results item.name ≠ none) →
      evaluate_score_loop the_results items acc
        = .ok (acc ++ items.map (scoreFor the_results)) := by
  intro items
  induction items with
  | nil =>
    intro acc _
    simp [evaluate_score_loop]
  | cons item rest ih =>
    intro acc hall
    cases hf : test_results.find the_results item.name with
    | none => exact absurd hf (hall item (List.mem_cons_self _ _))
    | some suite =>
      rw [evaluate_score_loop_step the_results hwk item rest acc suite hf,
        ih _ (fun it hit => hall it (List.mem_cons_of_mem _ hit))]
      simp

theorem evaluate_score_loop_missing (the_results : test_results) (hwk : WellKeyed the_results) :
    ∀ (items : List rubric_item) (acc : rubric_score),
      (∃ item ∈ items, test_results.find the_results item.name = none) →
      ∃ msg, evaluate_score_loop the_results items acc = .error (.parse_exception msg) := by
  intro items
  induction items with
  | nil =>
    rintro acc ⟨item, hmem, _⟩
    cases hmem
  | cons item rest ih =>
    rintro acc ⟨it, hmem, hnone⟩
    cases hf : test_results.find the_results item.name with
    | none =>
      unfold evaluate_score_loop
      rw [hf]
      exact ⟨_, rfl⟩
    | some suite =>
      rw [evaluate_score_loop_step the_results hwk item rest acc suite hf]
      rcases List.mem_cons.mp hmem with hc | hc
      · subst hc
        rw [hf] at hnone
        cases hnone
      · exact ih _ ⟨it, hc, hnone⟩

theorem WellKeyed_nil : WellKeyed [] := by
  intro name suite h
  simp [test_results.find] at h

theorem WellKeyed_cons (key : String) (s : testsuite) (rest : test_results)
    (hs : s.name = key) (hrest : WellKeyed rest) : WellKeyed ((key, s) :: rest) := by
  intro name suite h
  unfold test_results.find at h
  rw [List.lookup_cons] at h
  by_cases hk : (name == key) = true
  · rw [hk] at h
    simp only [Option.some.injEq] at h
    subst h
    rw [hs]
    exact (beq_iff_eq.mp hk).symm
  · have hk1 : (name == key) = false := by simpa using hk
    rw [hk1] at h
    exact hrest name suite h

/-! ## The results map that `load_test_results` builds -/

theorem lookup_cons_eq (key : String) (s : testsuite) (rest : test_results) (n : String) :
    List.lookup n ((key, s) :: rest) = if n = key then some s else List.lookup n rest := by
  rw [List.lookup_cons]
  by_cases hk : n = key
  · have hb : (n == key) = true := by simpa using hk
    rw [hb, if_pos hk]
  · have hb : (n == key) = false := by simpa using hk
    rw [hb, if_neg hk]

theorem find_assign (the_results : test_results) (name : String) (suite : testsuite)
    (n : String) :
    test_results.find (test_results.assign the_results name suite) n
      = if n = name then some suite else test_results.find the_results n := by
  induction the_results with
  | nil =>
    unfold test_results.find test_results.assign
    rw [lookup_cons_eq]
  | cons head rest ih =>
    obtain ⟨key, s⟩ := head
    unfold test_results.find at ih ⊢
    unfold test_results.assign
    by_cases h1 : name = key
    · rw [if_pos h1, lookup_cons_eq, lookup_cons_eq]
      subst h1
      by_cases hn : n = name
      · rw [if_pos hn, if_pos hn]
      · rw [if_neg hn, if_neg hn, if_neg hn]
    · rw [if_neg h1]
      by_cases h2 : name.data < key.data
      · rw [if_pos h2, lookup_cons_eq]
      · rw [if_neg h2, lookup_cons_eq, lookup_cons_eq, ih]
        by_cases hk : n = key
        · have hnn : ¬ n = name := fun h => h1 (h.symm.trans hk)
          rw [if_pos hk, if_neg hnn, if_pos hk]
        · rw [if_neg hk, if_neg hk]

theorem WellKeyed_assign (the_results : test_results) (name : String) (suite : testsuite)
    (hs : suite.name = name) (h : WellKeyed the_results) :
    WellKeyed (test_results.assign the_results name suite) := by
  intro n s hf
  rw [find_assign] at hf
  by_cases hn : n = name
  · rw [if_pos hn] at hf
    cases hf
    rw [hs, hn]
  · rw [if_neg hn] at hf
    exact h n s hf

theorem load_test_results_loop_wellKeyed :
    ∀ (children : List (String × Except String xmlattr)) (acc res : test_results),
      load_test_results_loop children acc = .ok res → WellKeyed acc → WellKeyed res := by
  intro children
  induction children with
  | nil =>
    intro acc res h hacc
    simp only [load_test_results_loop] at h
    cases h
    exact hacc
  | cons child rest ih =>
    intro acc res h hacc
    unfold load_test_results_loop at h
    by_cases htag : child.1 = "testsuite"
    · rw [if_pos htag] at h
      cases hattr : child.2 with
      | error what =>
        rw [hattr] at h
        cases h
      | ok attributes =>
        rw [hattr] at h
        dsimp only at h
        by_cases hname : attributes.name.getD "" = ""
        · rw [if_pos hname] at h
          cases h
        · rw [if_neg hname] at h
          exact ih _ res h (WellKeyed_assign acc _ _ rfl hacc)
    · rw [if_neg htag] at h
      exact ih acc res h hacc

/-- Every results map that `load_test_results` returns stores each suite under
the suite's own name. -/
theorem load_test_results_wellKeyed (parsed : Except String xml_tree) (res : test_results)
    (h : load_test_results parsed = .ok res) : WellKeyed res := by
  cases parsed with
  | error message =>
    simp only [load_test_results] at h
    cases h
  | ok tree =>
    simp only [load_test_results] at h
    cases hts : tree.testsuites with
    | error what =>
      rw [hts] at h
      cases h
    | ok testsuites =>
      rw [hts] at h
      dsimp only at h
      cases hloop : load_test_results_loop testsuites [] with
      | error e =>
        rw [hloop] at h
        cases h
      | ok result =>
        rw [hloop] at h
        dsimp only at h
        by_cases hempty : result.isEmpty = true
        · rw [if_pos hempty] at h
          cases h
        · rw [if_neg hempty] at h
          cases h
          exact load_test_results_loop_wellKeyed testsuites [] res hloop WellKeyed_nil

/-! ## Claims about `evaluate_score` and `load_rubric` -/

/-- Claim C15 is false as stated: for the rubric `a: 5` and a results map whose
suite `a` has zero failures and one error, `evaluate_score` succeeds and the
entry earns its 5 points, not zero. -/
theorem evaluate_score_errors_ignored :
    evaluate_score [⟨"a", 5⟩] [("a", ⟨"a", 1, 0, 0, 1, 0⟩)] = .ok [⟨some ⟨"a", 5⟩, true⟩] ∧
    test_results.find [("a", ⟨"a", 1, 0, 0, 1, 0⟩)] "a" = some ⟨"a", 1, 0, 0, 1, 0⟩ ∧
    testsuite.failures ⟨"a", 1, 0, 0, 1, 0⟩ = 0 ∧
    testsuite.errors ⟨"a", 1, 0, 0, 1, 0⟩ ≠ 0 ∧
    rubric_item_score.earned_points ⟨some ⟨"a", 5⟩, true⟩ = .ok 5 :=
  ⟨rfl, rfl, rfl, by decide, rfl⟩

/-- Claim C15, amended: when `evaluate_score` succeeds, the score of each rubric
entry earns the entry's full point value if the suite stored under the entry's
name has zero failures, and earns zero otherwise; the error count of the suite
is not consulted. -/
theorem evaluate_score_earned (the_rubric : rubric) (the_results : test_results)
    (scores : rubric_score) (h : evaluate_score the_rubric the_results = .ok scores)
    (k : Nat) (item : rubric_item) (hk : the_rubric[k]? = some item) :
    ∃ suite score, test_results.find the_results item.name = some suite ∧
      scores[k]? = some score ∧
      score.earned_points = .ok (if suite.failures = 0 then item.points else 0) := by
  obtain ⟨h1, h2⟩ := evaluate_score_loop_ok the_results the_rubric [] scores h
  obtain ⟨suite, hf, _⟩ := h2 item (List.getElem?_mem hk)
  refine ⟨suite, scoreFor the_results item, hf, ?_, ?_⟩
  · rw [h1]
    simp [hk]
  · by_cases hz : suite.failures = 0
    · simp [rubric_item_score.earned_points, rubric_item_score.is_valid,
        rubric_item_score.possible_points, scoreFor, hf, hz]
    · have hz1 : ¬ 0 = suite.failures := fun h0 => hz h0.symm
      simp [rubric_item_score.earned_points, rubric_item_score.is_valid, scoreFor, hf, hz, hz1]

theorem evaluate_score_earned_witness :
    evaluate_score [⟨"b", 3⟩, ⟨"a", 5⟩]
        [("a", ⟨"a", 4, 0, 0, 1, 0⟩), ("b", ⟨"b", 2, 1, 0, 0, 0⟩)]
      = .ok [⟨some ⟨"b", 3⟩, false⟩, ⟨some ⟨"a", 5⟩, true⟩] ∧
    [(⟨"b", 3⟩ : rubric_item), ⟨"a", 5⟩][1]? = some ⟨"a", 5⟩ ∧
    ∃ suite score,
      test_results.find [("a", ⟨"a", 4, 0, 0, 1, 0⟩), ("b", ⟨"b", 2, 1, 0, 0, 0⟩)]
        (rubric_item.name ⟨"a", 5⟩) = some suite ∧
      [(⟨some ⟨"b", 3⟩, false⟩ : rubric_item_score), ⟨some ⟨"a", 5⟩, true⟩][1]? = some score ∧
      score.earned_points
        = .ok (if suite.failures = 0 then rubric_item.points ⟨"a", 5⟩ else 0) :=
  ⟨rfl, rfl,
    evaluate_score_earned [⟨"b", 3⟩, ⟨"a", 5⟩]
      [("a", ⟨"a", 4, 0, 0, 1, 0⟩), ("b", ⟨"b", 2, 1, 0, 0, 0⟩)]
      [⟨some ⟨"b", 3⟩, false⟩, ⟨some ⟨"a", 5⟩, true⟩] (by rfl) 1 ⟨"a", 5⟩ (by rfl)⟩

/-- The assertion `name == suite.name()` of `evaluate_score` guards the shape of
the results map: on a map whose key `a` holds a suite named `x`, which
`load_test_results` never builds, the call stops on that assertion. -/
theorem evaluate_score_stops_on_mismatched_key :
    (∀ item ∈ [(⟨"a", 5⟩ : rubric_item)],
      test_results.find [("a", ⟨"x", 1, 0, 0, 0, 0⟩)] item.name ≠ none) ∧
    evaluate_score [⟨"a", 5⟩] [("a", ⟨"x", 1, 0, 0, 0, 0⟩)] = .error .assertion ∧
    ¬ WellKeyed [("a", ⟨"x", 1, 0, 0, 0, 0⟩)] := by
  refine ⟨?_, rfl, ?_⟩
  · intro item hmem
    rw [List.mem_singleton] at hmem
    subst hmem
    decide
  · intro hwk
    exact absurd (hwk "a" ⟨"x", 1, 0, 0, 0, 0⟩ rfl) (by decide)

/-- Claim C16: on a results map that stores each suite under the suite's own
name, as every map returned by `load_test_results` does and as the assertion of
`evaluate_score` states, `evaluate_score` throws `parse_exception` if and only if
the name of some rubric entry is not a key of the map; it succeeds when every
rubric name is a key; and it never stops on an assertion. A failure is an
`error` result, which carries no score list. -/
theorem evaluate_score_fails_iff (the_rubric : rubric) (the_results : test_results)
    (hwk : WellKeyed the_results) :
    ((∃ msg, evaluate_score the_rubric the_results = .error (.parse_exception msg)) ↔
      ∃ item ∈ the_rubric, test_results.find the_results item.name = none) ∧
    ((∀ item ∈ the_rubric, test_results.find the_results item.name ≠ none) →
      ∃ scores, evaluate_score the_rubric the_results = .ok scores) ∧
    evaluate_score the_rubric the_results ≠ .error .assertion := by
  have hpresent := evaluate_score_loop_present the_results hwk the_rubric []
  have hmissing := evaluate_score_loop_missing the_results hwk the_rubric []
  refine ⟨⟨?_, hmissing⟩, fun hall => ⟨_, hpresent hall⟩, ?_⟩
  · rintro ⟨msg, hmsg⟩
    by_contra hno
    have hall : ∀ item ∈ the_rubric, test_results.find the_results item.name ≠ none :=
      fun item hmem hnone => hno ⟨item, hmem, hnone⟩
    have hok := hpresent hall
    unfold evaluate_score at hmsg
    rw [hok] at hmsg
    cases hmsg
  · intro hassert
    unfold evaluate_score at hassert
    by_cases hall : ∀ item ∈ the_rubric, test_results.find the_results item.name ≠ none
    · rw [hpresent hall] at hassert
      cases hassert
    · have hex : ∃ item ∈ the_rubric, test_results.find the_results item.name = none := by
        by_contra hno
        exact hall (fun item hmem hnone => hno ⟨item, hmem, hnone⟩)
      obtain ⟨msg, hmsg⟩ := hmissing hex
      rw [hmsg] at hassert
      cases hassert

theorem evaluate_score_fails_iff_witness :
    load_test_results
        (.ok ⟨.ok [("testsuite", .ok ⟨some "a", some 1, some 0, none, none, none⟩)]⟩)
      = .ok [("a", ⟨"a", 1, 0, 0, 0, 0⟩)] ∧
    WellKeyed [("a", ⟨"a", 1, 0, 0, 0, 0⟩)] ∧
    (∃ item ∈ [(⟨"a", 5⟩ : rubric_item), ⟨"b", 3⟩],
      test_results.find [("a", ⟨"a", 1, 0, 0, 0, 0⟩)] item.name = none) ∧
    (∃ msg, evaluate_score [⟨"a", 5⟩, ⟨"b", 3⟩] [("a", ⟨"a", 1, 0, 0, 0, 0⟩)]
      = .error (.parse_exception msg)) ∧
    (∀ item ∈ [(⟨"a", 5⟩ : rubric_item)],
      test_results.find [("a", ⟨"a", 1, 0, 0, 0, 0⟩)] item.name ≠ none) ∧
    (∃ scores, evaluate_score [⟨"a", 5⟩] [("a", ⟨"a", 1, 0, 0, 0, 0⟩)] = .ok scores) :=
  have hload : load_test_results
      (.ok ⟨.ok [("testsuite", .ok ⟨some "a", some 1, some 0, none, none, none⟩)]⟩)
      = .ok [("a", ⟨"a", 1, 0, 0, 0, 0⟩)] := rfl
  have hwk : WellKeyed [("a", ⟨"a", 1, 0, 0, 0, 0⟩)] :=
    load_test_results_wellKeyed _ _ hload
  have hmiss : ∃ item ∈ [(⟨"a", 5⟩ : rubric_item), ⟨"b", 3⟩],
      test_results.find [("a", ⟨"a", 1, 0, 0, 0, 0⟩)] item.name = none :=
    ⟨⟨"b", 3⟩, by simp, by decide⟩
  have hall : ∀ item ∈ [(⟨"a", 5⟩ : rubric_item)],
      test_results.find [("a", ⟨"a", 1, 0, 0, 0, 0⟩)] item.name ≠ none := by
    intro item hmem
    rw [List.mem_singleton] at hmem
    subst hmem
    decide
  ⟨hload, hwk, hmiss,
    (evaluate_score_fails_iff [⟨"a", 5⟩, ⟨"b", 3⟩] [("a", ⟨"a", 1, 0, 0, 0, 0⟩)] hwk).1.mpr hmiss,
    hall,
    (evaluate_score_fails_iff [⟨"a", 5⟩] [("a", ⟨"a", 1, 0, 0, 0, 0⟩)] hwk).2.1 hall⟩

/-- Claim C17: a rubric that `load_rubric` returns is non-empty and each of its
items has a point value of at least 1; it is returned only for a tree that has
at least one entry and in which every entry decodes to a value of at least 1,
and it lists the entries of the tree in their order. -/
theorem load_rubric_positive (parsed : Except String ptree) (r : rubric)
    (h : load_rubric parsed = .ok r) :
    r ≠ [] ∧ (∀ item ∈ r, 1 ≤ item.points) ∧
      ∃ tree, parsed = .ok tree ∧ tree ≠ [] ∧
        (∀ child ∈ tree, 1 ≤ get_value child.2 0) ∧ r = tree.map itemOf := by
  cases parsed with
  | error message =>
    simp only [load_rubric] at h
    cases h
  | ok tree =>
    simp only [load_rubric] at h
    cases hloop : load_rubric_loop tree [] with
    | error e =>
      rw [hloop] at h
      cases h
    | ok result =>
      rw [hloop] at h
      dsimp only at h
      obtain ⟨h1, h2⟩ := load_rubric_loop_ok tree [] result hloop
      rw [List.nil_append] at h1
      by_cases hempty : result.isEmpty = true
      · rw [if_pos hempty] at h
        cases h
      · rw [if_neg hempty] at h
        cases h
        have hne : r ≠ [] := by
          intro hnil
          rw [hnil] at hempty
          exact hempty rfl
        refine ⟨hne, ?_, tree, rfl, ?_, h2, h1⟩
        · intro item hmem
          rw [h1] at hmem
          obtain ⟨child, hc, hitem⟩ := List.mem_map.mp hmem
          rw [← hitem]
          exact h2 child hc
        · intro hnil
          rw [hnil] at h1
          exact hne h1

theorem load_rubric_positive_witness :
    load_rubric (.ok [("b", some 3), ("a", some 5)]) = .ok [⟨"b", 3⟩, ⟨"a", 5⟩] ∧
    [(⟨"b", 3⟩ : rubric_item), ⟨"a", 5⟩] ≠ [] ∧
    (∀ item ∈ [(⟨"b", 3⟩ : rubric_item), ⟨"a", 5⟩], 1 ≤ item.points) :=
  ⟨rfl,
    (load_rubric_positive (.ok [("b", some 3), ("a", some 5)]) [⟨"b", 3⟩, ⟨"a", 5⟩]
      (by rfl)).1,
    (load_rubric_positive (.ok [("b", some 3), ("a", some 5)]) [⟨"b", 3⟩, ⟨"a", 5⟩]
      (by rfl)).2.1⟩

/-- Claim C18: when `evaluate_score` succeeds, its result has as many scores as
the rubric has entries, and the score at each position points to the rubric
item at the same position. -/
theorem evaluate_score_order (the_rubric : rubric) (the_results : test_results)
    (scores : rubric_score) (h : evaluate_score the_rubric the_results = .ok scores)
    (k : Nat) (item : rubric_item) (hk : the_rubric[k]? = some item) :
    scores.length = the_rubric.length ∧
      ∃ score, scores[k]? = some score ∧ score.item_ = some item := by
  obtain ⟨h1, _⟩ := evaluate_score_loop_ok the_results the_rubric [] scores h
  rw [List.nil_append] at h1
  refine ⟨by rw [h1, List.length_map], scoreFor the_results item, ?_, rfl⟩
  rw [h1]
  simp [hk]

theorem evaluate_score_order_witness :
    evaluate_score [⟨"b", 3⟩, ⟨"a", 5⟩]
        [("a", ⟨"a", 4, 0, 0, 0, 0⟩), ("b", ⟨"b", 2, 1, 0, 0, 0⟩)]
      = .ok [⟨some ⟨"b", 3⟩, false⟩, ⟨some ⟨"a", 5⟩, true⟩] ∧
    [(⟨"b", 3⟩ : rubric_item), ⟨"a", 5⟩][0]? = some ⟨"b", 3⟩ ∧
    [(⟨some ⟨"b", 3⟩, false⟩ : rubric_item_score), ⟨some ⟨"a", 5⟩, true⟩].length
      = [(⟨"b", 3⟩ : rubric_item), ⟨"a", 5⟩].length ∧
    ∃ score,
      [(⟨some ⟨"b", 3⟩, false⟩ : rubric_item_score), ⟨some ⟨"a", 5⟩, true⟩][0]? = some score ∧
      score.item_ = some ⟨"b", 3⟩ :=
  ⟨rfl, rfl,
    evaluate_score_order [⟨"b", 3⟩, ⟨"a", 5⟩]
      [("a", ⟨"a", 4, 0, 0, 0, 0⟩), ("b", ⟨"b", 2, 1, 0, 0, 0⟩)]
      [⟨some ⟨"b", 3⟩, false⟩, ⟨some ⟨"a", 5⟩, true⟩] (by rfl) 0 ⟨"b", 3⟩ (by rfl)⟩

/-! ## The pipeline `load_rubric`, `load_test_results`, `evaluate_score`, `print_score` -/

theorem assign_mem (the_results : test_results) (name : String) (suite : testsuite)
    (entry : String × testsuite)
    (h : entry ∈ test_results.assign the_results name suite) :
    entry = (name, suite) ∨ entry ∈ the_results := by
  induction the_results with
  | nil =>
    simp only [test_results.assign, List.mem_singleton] at h
    exact Or.inl h
  | cons head rest ih =>
    obtain ⟨key, s⟩ := head
    unfold test_results.assign at h
    by_cases h1 : name = key
    · rw [if_pos h1] at h
      rcases List.mem_cons.mp h with hc | hc
      · exact Or.inl hc
      · exact Or.inr (List.mem_cons_of_mem _ hc)
    · rw [if_neg h1] at h
      by_cases h2 : name.data < key.data
      · rw [if_pos h2] at h
        rcases List.mem_cons.mp h with hc | hc
        · exact Or.inl hc
        · exact Or.inr hc
      · rw [if_neg h2] at h
        rcases List.mem_cons.mp h with hc | hc
        · exact Or.inr (hc ▸ List.mem_cons_self _ _)
        · rcases ih hc with h3 | h3
          · exact Or.inl h3
          · exact Or.inr (List.mem_cons_of_mem _ h3)

theorem KeysNonEmpty_assign (the_results : test_results) (name : String) (suite : testsuite)
    (hname : name ≠ "") (h : KeysNonEmpty the_results) :
    KeysNonEmpty (test_results.assign the_results name suite) := by
  intro entry hmem
  rcases assign_mem the_results name suite entry hmem with hc | hc
  · rw [hc]
    exact hname
  · exact h entry hc

theorem load_test_results_loop_keys :
    ∀ (children : List (String × Except String xmlattr)) (acc res : test_results),
      load_test_results_loop children acc = .ok res → KeysNonEmpty acc → KeysNonEmpty res := by
  intro children
  induction children with
  | nil =>
    intro acc res h hacc
    simp only [load_test_results_loop] at h
    cases h
    exact hacc
  | cons child rest ih =>
    intro acc res h hacc
    unfold load_test_results_loop at h
    by_cases htag : child.1 = "testsuite"
    · rw [if_pos htag] at h
      cases hattr : child.2 with
      | error what =>
        rw [hattr] at h
        cases h
      | ok attributes =>
        rw [hattr] at h
        dsimp only at h
        by_cases hname : attributes.name.getD "" = ""
        · rw [if_pos hname] at h
          cases h
        · rw [if_neg hname] at h
          exact ih _ res h (KeysNonEmpty_assign acc _ _ hname hacc)
    · rw [if_neg htag] at h
      exact ih acc res h hacc

theorem load_test_results_keys (parsed : Except String xml_tree) (res : test_results)
    (h : load_test_results parsed = .ok res) : KeysNonEmpty res := by
  cases parsed with
  | error message =>
    simp only [load_test_results] at h
    cases h
  | ok tree =>
    simp only [load_test_results] at h
    cases hts : tree.testsuites with
    | error what =>
      rw [hts] at h
      cases h
    | ok testsuites =>
      rw [hts] at h
      dsimp only at h
      cases hloop : load_test_results_loop testsuites [] with
      | error e =>
        rw [hloop] at h
        cases h
      | ok result =>
        rw [hloop] at h
        dsimp only at h
        by_cases hempty : result.isEmpty = true
        · rw [if_pos hempty] at h
          cases h
        · rw [if_neg hempty] at h
          cases h
          exact load_test_results_loop_keys testsuites [] res hloop
            (fun entry hmem => absurd hmem (List.not_mem_nil entry))

theorem find_some_key (the_results : test_results) (name : String) (suite : testsuite)
    (h : test_results.find the_results name = some suite) :
    ∃ entry ∈ the_results, entry.1 = name := by
  induction the_results with
  | nil => simp [test_results.find] at h
  | cons head rest ih =>
    obtain ⟨key, s⟩ := head
    unfold test_results.find at h ih
    rw [List.lookup_cons] at h
    by_cases hk : (name == key) = true
    · exact ⟨(key, s), List.mem_cons_self _ _, (beq_iff_eq.mp hk).symm⟩
    · have hk1 : (name == key) = false := by simpa using hk
      rw [hk1] at h
      obtain ⟨entry, hmem, hentry⟩ := ih h
      exact ⟨entry, List.mem_cons_of_mem _ hmem, hentry⟩

theorem name_width_loop_spec (the_results : test_results) :
    ∀ (items : List rubric_item) (w : Nat),
      ∃ w1, name_width_loop (items.map (scoreFor the_results)) w = .ok w1 ∧ w ≤ w1 ∧
        (∀ item ∈ items, item.name.length % 4294967296 ≤ w1) ∧
        (w1 = w ∨ ∃ item ∈ items, w1 = item.name.length % 4294967296) := by
  intro items
  induction items with
  | nil =>
    intro w
    exact ⟨w, rfl, Nat.le_refl w, fun item hmem => absurd hmem (List.not_mem_nil item),
      Or.inl rfl⟩
  | cons item rest ih =>
    intro w
    obtain ⟨w1, h1, h2, h3, h4⟩ := ih (max w (item.name.length % 4294967296))
    refine ⟨w1, ?_, ?_, ?_, ?_⟩
    · rw [List.map_cons]
      unfold name_width_loop
      simp only [scoreFor, rubric_item_score.item]
      exact h1
    · exact Nat.le_trans (Nat.le_max_left _ _) h2
    · intro it hmem
      rcases List.mem_cons.mp hmem with hc | hc
      · rw [hc]
        exact Nat.le_trans (Nat.le_max_right _ _) h2
      · exact h3 it hc
    · rcases h4 with h5 | ⟨it, hmem, h5⟩
      · rcases Nat.le_total w (item.name.length % 4294967296) with hle | hle
        · rw [Nat.max_eq_right hle] at h5
          exact Or.inr ⟨item, List.mem_cons_self _ _, h5⟩
        · rw [Nat.max_eq_left hle] at h5
          exact Or.inl h5
      · exact Or.inr ⟨it, List.mem_cons_of_mem _ hmem, h5⟩

theorem wideName_length : wideName.length = 4294967296 := by
  show (List.replicate 4294967296 'a').length = 4294967296
  exact List.length_replicate _ _

theorem wideName_ne_empty : wideName ≠ "" := by
  intro h
  have hlen := congrArg String.length h
  rw [wideName_length] at hlen
  exact absurd hlen (by decide)

theorem pipeline_of_wide_name (name : String) (hne : name ≠ "")
    (hmod : name.length % 4294967296 = 0) :
    load_rubric (.ok [(name, some 1)]) = .ok [⟨name, 1⟩] ∧
    load_test_results
        (.ok ⟨.ok [("testsuite", .ok ⟨some name, some 1, some 0, none, none, none⟩)]⟩)
      = .ok [(name, ⟨name, 1, 0, 0, 0, 0⟩)] ∧
    evaluate_score [⟨name, 1⟩] [(name, ⟨name, 1, 0, 0, 0, 0⟩)]
      = .ok [⟨some ⟨name, 1⟩, true⟩] ∧
    print_score_name_width [⟨some ⟨name, 1⟩, true⟩] = .error .assertion := by
  refine ⟨?_, ?_, ?_, ?_⟩
  · simp [load_rubric, load_rubric_loop, get_value]
  · simp [load_test_results, load_test_results_loop, test_results.assign, get_value, hne]
  · simp [evaluate_score, evaluate_score_loop, test_results.find, List.lookup,
      rubric_item.name, testsuite.name, testsuite.failures, rubric_item_score.ctor,
      rubric_item_score.is_valid]
  · simp [print_score_name_width, name_width_loop, rubric_item_score.item, rubric_item.name,
      hmod]

/-- Claim C21, the code at the failing input: with a rubric whose only name is
`wideName`, of `2^32` characters, and a test report with a suite of that name,
the two loaders and `evaluate_score` succeed, and `print_score` then fails its
own assertion `name_width > 0`, because `unsigned(name.size())` is 0. -/
theorem print_score_assert_fails :
    load_rubric (.ok [(wideName, some 1)]) = .ok [⟨wideName, 1⟩] ∧
    load_test_results
        (.ok ⟨.ok [("testsuite", .ok ⟨some wideName, some 1, some 0, none, none, none⟩)]⟩)
      = .ok [(wideName, ⟨wideName, 1, 0, 0, 0, 0⟩)] ∧
    evaluate_score [⟨wideName, 1⟩] [(wideName, ⟨wideName, 1, 0, 0, 0, 0⟩)]
      = .ok [⟨some ⟨wideName, 1⟩, true⟩] ∧
    print_score_name_width [⟨some ⟨wideName, 1⟩, true⟩] = .error .assertion :=
  pipeline_of_wide_name wideName wideName_ne_empty (by rw [wideName_length])

/-- Away from the narrowing of the name size the assertion of `print_score`
holds: whenever `load_rubric` and `load_test_results` succeed and
`evaluate_score` succeeds on their outputs, the score list is non-empty and the
name of every scored item is non-empty; when in addition some rubric name is
shorter than `2^32` characters, `name_width > 0` holds. -/
theorem print_score_assert_holds (json : Except String ptree) (xml : Except String xml_tree)
    (the_rubric : rubric) (the_results : test_results) (scores : rubric_score)
    (hr : load_rubric json = .ok the_rubric)
    (ht : load_test_results xml = .ok the_results)
    (hs : evaluate_score the_rubric the_results = .ok scores) :
    scores ≠ [] ∧
    (∀ score ∈ scores, ∃ item, score.item = .ok item ∧ item.name ≠ "") ∧
    ((∃ item ∈ the_rubric, item.name.length < 4294967296) →
      ∃ w, print_score_name_width scores = .ok w ∧ 0 < w) := by
  obtain ⟨h1, h2⟩ := evaluate_score_loop_ok the_results the_rubric [] scores hs
  rw [List.nil_append] at h1
  have hkeys := load_test_results_keys xml the_results ht
  have hname : ∀ item ∈ the_rubric, item.name ≠ "" := by
    intro item hmem
    obtain ⟨suite, hf, _⟩ := h2 item hmem
    obtain ⟨entry, hentry, hkey⟩ := find_some_key the_results item.name suite hf
    rw [← hkey]
    exact hkeys entry hentry
  have hne : the_rubric ≠ [] := by
    cases json with
    | error message =>
      simp only [load_rubric] at hr
      cases hr
    | ok tree =>
      simp only [load_rubric] at hr
      cases hloop : load_rubric_loop tree [] with
      | error e =>
        rw [hloop] at hr
        cases hr
      | ok result =>
        rw [hloop] at hr
        dsimp only at hr
        by_cases hempty : result.isEmpty = true
        · rw [if_pos hempty] at hr
          cases hr
        · rw [if_neg hempty] at hr
          cases hr
          intro hnil
          rw [hnil] at hempty
          exact hempty rfl
  refine ⟨?_, ?_, ?_⟩
  · intro hnil
    rw [h1] at hnil
    exact hne (List.map_eq_nil_iff.mp hnil)
  · intro score hmem
    rw [h1] at hmem
    obtain ⟨item, hitem, hscore⟩ := List.mem_map.mp hmem
    exact ⟨item, by rw [← hscore]; rfl, hname item hitem⟩
  · rintro ⟨item, hitem, hlen⟩
    obtain ⟨w, hw, _, hall, _⟩ := name_width_loop_spec the_results the_rubric 0
    have hpos : 0 < item.name.length := by
      rcases Nat.eq_zero_or_pos item.name.length with h0 | h0
      · exact absurd (String.ext (List.length_eq_zero.mp h0)) (hname item hitem)
      · exact h0
    have hle := hall item hitem
    rw [Nat.mod_eq_of_lt hlen] at hle
    have hwpos : 0 < w := Nat.lt_of_lt_of_le hpos hle
    refine ⟨w, ?_, hwpos⟩
    unfold print_score_name_width
    rw [h1, hw]
    dsimp only
    rw [if_pos hwpos]

theorem print_score_assert_holds_witness :
    load_rubric (.ok [("b", some 3), ("ab", some 5)]) = .ok [⟨"b", 3⟩, ⟨"ab", 5⟩] ∧
    load_test_results
        (.ok ⟨.ok [("testsuite", .ok ⟨some "b", some 2, some 1, none, none, none⟩),
          ("testsuite", .ok ⟨some "ab", some 4, some 0, none, none, none⟩)]⟩)
      = .ok [("ab", ⟨"ab", 4, 0, 0, 0, 0⟩), ("b", ⟨"b", 2, 1, 0, 0, 0⟩)] ∧
    evaluate_score [⟨"b", 3⟩, ⟨"ab", 5⟩]
        [("ab", ⟨"ab", 4, 0, 0, 0, 0⟩), ("b", ⟨"b", 2, 1, 0, 0, 0⟩)]
      = .ok [⟨some ⟨"b", 3⟩, false⟩, ⟨some ⟨"ab", 5⟩, true⟩] ∧
    (∃ item ∈ [(⟨"b", 3⟩ : rubric_item), ⟨"ab", 5⟩], item.name.length < 4294967296) ∧
    [(⟨some ⟨"b", 3⟩, false⟩ : rubric_item_score), ⟨some ⟨"ab", 5⟩, true⟩] ≠ [] ∧
    ∃ w, print_score_name_width [⟨some ⟨"b", 3⟩, false⟩, ⟨some ⟨"ab", 5⟩, true⟩] = .ok w ∧
      0 < w :=
  have hlen : ∃ item ∈ [(⟨"b", 3⟩ : rubric_item), ⟨"ab", 5⟩],
      item.name.length < 4294967296 :=
    ⟨⟨"b", 3⟩, List.mem_cons_self _ _, by decide⟩
  ⟨rfl, rfl, rfl, hlen,
    (print_score_assert_holds (.ok [("b", some 3), ("ab", some 5)])
      (.ok ⟨.ok [("testsuite", .ok ⟨some "b", some 2, some 1, none, none, none⟩),
        ("testsuite", .ok ⟨some "ab", some 4, some 0, none, none, none⟩)]⟩)
      [⟨"b", 3⟩, ⟨"ab", 5⟩] [("ab", ⟨"ab", 4, 0, 0, 0, 0⟩), ("b", ⟨"b", 2, 1, 0, 0, 0⟩)]
      [⟨some ⟨"b", 3⟩, false⟩, ⟨some ⟨"ab", 5⟩, true⟩] (by rfl) (by rfl) (by rfl)).1,
    (print_score_assert_holds (.ok [("b", some 3), ("ab", some 5)])
      (.ok ⟨.ok [("testsuite", .ok ⟨some "b", some 2, some 1, none, none, none⟩),
        ("testsuite", .ok ⟨some "ab", some 4, some 0, none, none, none⟩)]⟩)
      [⟨"b", 3⟩, ⟨"ab", 5⟩] [("ab", ⟨"ab", 4, 0, 0, 0, 0⟩), ("b", ⟨"b", 2, 1, 0, 0, 0⟩)]
      [⟨some ⟨"b", 3⟩, false⟩, ⟨some ⟨"ab", 5⟩, true⟩] (by rfl) (by rfl) (by rfl)).2.2 hlen⟩

end rubricscore
